import Mathlib

/-
Verification development for the laser-dac streaming protocol client.

The definitions below are a shallow embedding of
`src/packages/ether-dream/src/EtherConn.ts` and
`src/packages/draw/src/Path.ts`.

Bytes are modelled as `Nat` (one byte per list entry), machine integers as
`Nat`/`Int` with explicit reductions modulo 2^16 / 2^32 where the wire
format requires it.  Asynchronous commands that send bytes and await one
standard response are modelled as functions threading the session state
and a list of device responses (one response consumed per await); a
missing response is the `blocked` outcome, a thrown JS `Error` is the
`usage` outcome.
-/

/-- Decoded standard response, the shape produced by `parseStandardResponse`
and consumed by `handleStandardResponse`.  `response` is the response-code
byte (97 = the character a = acknowledged). -/
structure Resp where
  response : Nat
  buffer_fullness : Nat
  playback_state : Nat
  playback_flags : Nat
deriving DecidableEq, Repr

/-- Session state: the mutable fields of class `EtherConn`.  `client` is the
transport handle (`none` = absent), `rate = 0` models both an explicit zero
and an unconfigured `rate?: number` (both falsy in the source),
`streamCallback` is an abstract handle to the sample source, and
`inputhandlerqueue` keeps the byte-count of each pending-response entry in
registration order (the continuation itself is represented positionally by
the order of delivered outputs). -/
structure ConnState where
  client : Option Unit
  inputqueue : List Nat
  inputhandlerqueue : List Nat
  timer : Nat
  acks : Nat
  fullness : Nat
  points_in_buffer : Nat
  playback_state : Nat
  playsent : Bool
  beginsent : Bool
  preparesent : Bool
  valid : Bool
  rate : Nat
  streamCallback : Option Unit
  running : Bool
  ip : Option Nat
  port : Option Nat
deriving DecidableEq, Repr

/-- Field initializers of class `EtherConn`: the state of a freshly
constructed session. -/
def initConn : ConnState where
  client := none
  inputqueue := []
  inputhandlerqueue := []
  timer := 0
  acks := 0
  fullness := 0
  points_in_buffer := 0
  playback_state := 0
  playsent := false
  beginsent := false
  preparesent := false
  valid := true
  rate := 0
  streamCallback := none
  running := false
  ip := none
  port := none

/-- One sample point, interface `IPoint`: x, y signed, r, g, b unsigned, and
the four optional protocol fields `control`, `i` (intensity), `u1`, `u2`. -/
structure IPoint where
  x : Int
  y : Int
  r : Nat
  g : Nat
  b : Nat
  control : Option Nat
  i : Option Nat
  u1 : Option Nat
  u2 : Option Nat
deriving DecidableEq, Repr

/-- Modelled from the spec: `writeUnsignedInt16` from the missing
`src/packages/ether-dream/src/write.ts` — a 16-bit unsigned little-endian
encoder ("fixed-width little-endian integers of 16 and 32 bits"). -/
def writeUnsignedInt16 (n : Nat) : List Nat :=
  [n % 256, n / 256 % 256]

/-- Modelled from the spec: `writeUnsignedInt32` from the missing
`write.ts` — a 32-bit unsigned little-endian encoder. -/
def writeUnsignedInt32 (n : Nat) : List Nat :=
  [n % 256, n / 256 % 256, n / 65536 % 256, n / 16777216 % 256]

/-- Modelled from the spec: `writeSignedInt16` from the missing
`write.ts` — a 16-bit signed little-endian encoder (two's complement). -/
def writeSignedInt16 (n : Int) : List Nat :=
  writeUnsignedInt16 (n % 65536).toNat

/-- Bytes of the prepare command: the single opcode byte p (112). -/
def prepareBytes : List Nat := [112]

/-- Bytes of the begin command built in `sendBegin`: opcode b (98), u16
low-water-mark 0, u32 rate. -/
def beginBytes (rate : Nat) : List Nat :=
  98 :: writeUnsignedInt16 0 ++ writeUnsignedInt32 rate

/-- Bytes of the update command built in `sendUpdate`: opcode u (117), u16
low-water-mark 0, u32 rate. -/
def updateBytes (rate : Nat) : List Nat :=
  117 :: writeUnsignedInt16 0 ++ writeUnsignedInt32 rate

/-- Per-point payload appended by the loop body of `sendPoints`: nine 16-bit
fields in source order, each absent optional field defaulted to 0 by the
source's `|| 0`. -/
def pointBytes (p : IPoint) : List Nat :=
  writeUnsignedInt16 (p.control.getD 0) ++
  writeSignedInt16 p.x ++
  writeSignedInt16 p.y ++
  writeUnsignedInt16 p.r ++
  writeUnsignedInt16 p.g ++
  writeUnsignedInt16 p.b ++
  writeUnsignedInt16 (p.i.getD 0) ++
  writeUnsignedInt16 (p.u1.getD 0) ++
  writeUnsignedInt16 (p.u2.getD 0)

/-- Full command string built by `sendPoints`: opcode d (100), u16 batch
length, then the per-point payloads. -/
def sendPointsBytes (points : List IPoint) : List Nat :=
  100 :: writeUnsignedInt16 points.length ++ (points.map pointBytes).flatten

/-- Method `_popinputqueue`: if the pending-response queue is non-empty and
the inbound queue holds at least the head entry's byte count, splice those
bytes off the front, remove the head entry and invoke its continuation with
the bytes (returned as `some bytes`); otherwise do nothing. -/
def popinputqueue (s : ConnState) : ConnState × Option (List Nat) :=
  match s.inputhandlerqueue with
  | [] => (s, none)
  | sz :: rest =>
    if sz ≤ s.inputqueue.length then
      ({ s with inputqueue := s.inputqueue.drop sz, inputhandlerqueue := rest },
       some (s.inputqueue.take sz))
    else (s, none)

/-- One inbound `data` event (the demultiplexer's `feed`): the listener in
`connect` pushes every byte onto the inbound queue, then schedules a single
`_popinputqueue` call. -/
def feed (bytes : List Nat) (s : ConnState) : ConnState × Option (List Nat) :=
  popinputqueue { s with inputqueue := s.inputqueue ++ bytes }

/-- Deliver a list of feed calls in order, collecting the continuation
invocations each produced. -/
def runFeeds : List (List Nat) → ConnState → ConnState × List (List Nat)
  | [], s => (s, [])
  | b :: bs, s =>
    let fd := feed b s
    let rest := runFeeds bs fd.1
    (rest.1, fd.2.toList ++ rest.2)

/-- Invoke `_popinputqueue` n times in a row, collecting the continuation
invocations (in the running system each `_send`, each `waitForResponse` and
each later data event triggers one such call). -/
def runPops : Nat → ConnState → ConnState × List (List Nat)
  | 0, s => (s, [])
  | n + 1, s =>
    let fd := popinputqueue s
    let rest := runPops n fd.1
    (rest.1, fd.2.toList ++ rest.2)

/-- Cut a byte list into consecutive chunks of the given sizes: the bytes
each queued continuation should receive, in registration order. -/
def splitSizes : List Nat → List Nat → List (List Nat)
  | [], _ => []
  | sz :: rest, bytes => bytes.take sz :: splitSizes rest (bytes.drop sz)

/-- Method `handleStandardResponse`: copy fullness and playback state from
the status block, recompute `valid` as (response code = a), and if the
playback-flags value equals 2 clear `beginsent`. -/
def handleStandardResponse (s : ConnState) (d : Resp) : ConnState :=
  let s1 := { s with
    fullness := d.buffer_fullness
    playback_state := d.playback_state
    valid := d.response == 97 }
  if d.playback_flags == 2 then { s1 with beginsent := false } else s1

/-- Failure outcomes of a modelled command: `usage` is a thrown JS `Error`,
`blocked` is an await whose response never arrives. -/
inductive CmdError where
  | usage
  | blocked
deriving DecidableEq, Repr

/-- Observable transport/timing events of a command. -/
inductive Event where
  | sent (bytes : List Nat)
  | received (r : Resp)
  | delayed (t : Nat)
deriving DecidableEq, Repr

/-- An event is a transport event (send or receive), not a pure delay. -/
def Event.isComm : Event → Bool
  | .delayed _ => false
  | _ => true

/-- Method `waitForResponse` as seen by an awaiting command: consume the
next device response, run `handleStandardResponse` on it, resume. -/
def awaitResp (s : ConnState) (rs : List Resp) :
    Except CmdError (Resp × ConnState × List Resp) :=
  match rs with
  | [] => .error .blocked
  | r :: rest => .ok (r, handleStandardResponse s r, rest)

/-- Method `sendPrepare`: send p, await one response, set `preparesent`. -/
def sendPrepare (s : ConnState) (rs : List Resp) :
    Except CmdError (List Event × ConnState × List Resp) := do
  let (r, s1, rs1) ← awaitResp s rs
  .ok ([Event.sent prepareBytes, Event.received r],
       { s1 with preparesent := true }, rs1)

/-- Method `sendBegin`: a falsy rate throws before anything is sent;
otherwise send b + u16 0 + u32 rate, await one response, then set
`beginsent` true. -/
def sendBegin (rate : Nat) (s : ConnState) (rs : List Resp) :
    Except CmdError (List Event × ConnState × List Resp) :=
  if rate == 0 then .error .usage
  else do
    let (r, s1, rs1) ← awaitResp s rs
    .ok ([Event.sent (beginBytes rate), Event.received r],
         { s1 with beginsent := true }, rs1)

/-- Method `sendUpdate`: no rate check; send u + u16 0 + u32 rate, await one
response, then set `beginsent` true. -/
def sendUpdate (rate : Nat) (s : ConnState) (rs : List Resp) :
    Except CmdError (List Event × ConnState × List Resp) := do
  let (r, s1, rs1) ← awaitResp s rs
  .ok ([Event.sent (updateBytes rate), Event.received r],
       { s1 with beginsent := true }, rs1)

/-- Method `sendPoints`: send the encoded batch, await the response; if the
(freshly updated) `valid` flag holds and `beginsent` is false, run
`sendBegin` with the session rate. -/
def sendPoints (points : List IPoint) (s : ConnState) (rs : List Resp) :
    Except CmdError (List Event × ConnState × List Resp) := do
  let (r, s1, rs1) ← awaitResp s rs
  if s1.valid then
    if s1.beginsent then
      .ok ([Event.sent (sendPointsBytes points), Event.received r], s1, rs1)
    else do
      let (evs2, s2, rs2) ← sendBegin s1.rate s1 rs1
      .ok ([Event.sent (sendPointsBytes points), Event.received r] ++ evs2,
           s2, rs2)
  else
    .ok ([Event.sent (sendPointsBytes points), Event.received r], s1, rs1)

/-- Spare-capacity computation in `run`: `Math.max(0, 1799 - fullness)`. -/
def spareCap (fullness : Nat) : Int :=
  max 0 (1799 - (fullness : Int))

/-- Padding heuristic in `run`: below 100 spare slots, (after a 5 ms pause)
add 150 to the capacity estimate. -/
def paddedCap (cap : Int) : Int :=
  if cap < 100 then cap + 150 else cap

/-- Number of samples one scheduler iteration asks the frame for, as a
function of the last-known fullness. -/
def capFor (fullness : Nat) : Nat :=
  (paddedCap (spareCap fullness)).toNat

/-- One iteration of the scheduler loop `run`, with `frame` standing for the
batch returned by `this.streamCallback()`: bail out when not running,
busy-wait when no sample source is configured, otherwise prepare first when
the last-known playback state is idle, compute the capacity estimate, take
that many samples off the front of the frame and submit them through
`sendPoints`. -/
def runIteration (frame : List IPoint) (s : ConnState) (rs : List Resp) :
    Except CmdError (List Event × ConnState × List Resp) :=
  if s.running = false then .ok ([], s, rs)
  else if s.streamCallback.isNone then .ok ([Event.delayed 0], s, rs)
  else do
    let (evs1, s1, rs1) ←
      if s.playback_state == 0 then sendPrepare s rs else pure ([], s, rs)
    let cap0 := spareCap s1.fullness
    let step2 : List Event × Int :=
      if cap0 < 100 then ([Event.delayed 5], cap0 + 150) else ([], cap0)
    let pts := frame.take step2.2.toNat
    let (evs3, s2, rs2) ← sendPoints pts s1 rs1
    .ok (evs1 ++ step2.1 ++ evs3, s2, rs2)

/-- Method `close`: reset the demux queues, counters, state fields and
flags to their initial values, stop the loop and destroy the transport
handle.  The source leaves `rate`, `streamCallback`, `ip` and `port`
untouched. -/
def close (s : ConnState) : ConnState :=
  { s with
    inputqueue := []
    inputhandlerqueue := []
    timer := 0
    acks := 0
    fullness := 0
    points_in_buffer := 0
    playback_state := 0
    playsent := false
    beginsent := false
    preparesent := false
    valid := true
    running := false
    client := none }

/-- Decoded form of one wire sample: the nine 16-bit fields of the
write-samples payload, in wire order. -/
structure Sample where
  control : Nat
  x : Int
  y : Int
  r : Nat
  g : Nat
  b : Nat
  i : Nat
  u1 : Nat
  u2 : Nat
deriving DecidableEq, Repr

/-- Reinterpret an unsigned 16-bit value as a two's-complement signed one. -/
def toSigned16 (v : Nat) : Int :=
  if v < 32768 then (v : Int) else (v : Int) - 65536

/-- Read one little-endian unsigned 16-bit value off the front of a byte
list. -/
def readU16 : List Nat → Option (Nat × List Nat)
  | a :: b :: rest => some (a + 256 * b, rest)
  | _ => none

/-- Read one wire sample (nine 16-bit fields, x and y signed). -/
def readSample (bytes : List Nat) : Option (Sample × List Nat) := do
  let (c, b1) ← readU16 bytes
  let (xv, b2) ← readU16 b1
  let (yv, b3) ← readU16 b2
  let (rv, b4) ← readU16 b3
  let (gv, b5) ← readU16 b4
  let (bv, b6) ← readU16 b5
  let (iv, b7) ← readU16 b6
  let (v1, b8) ← readU16 b7
  let (v2, b9) ← readU16 b8
  some (⟨c, toSigned16 xv, toSigned16 yv, rv, gv, bv, iv, v1, v2⟩, b9)

/-- Read a run of n wire samples. -/
def readSamples : Nat → List Nat → Option (List Sample × List Nat)
  | 0, bytes => some ([], bytes)
  | n + 1, bytes => do
    let (smp, rest) ← readSample bytes
    let (more, rest2) ← readSamples n rest
    some (smp :: more, rest2)

/-- Inverse of the write-samples command layout: opcode d (100), u16 count,
then exactly count samples consuming the whole byte list. -/
def decodePointsCmd (bytes : List Nat) : Option (List Sample) :=
  match bytes with
  | op :: rest =>
    if op = 100 then do
      let (n, rest2) ← readU16 rest
      let (smps, rest3) ← readSamples n rest2
      if rest3 = [] then some smps else none
    else none
  | [] => none

/-- The wire fields a given `IPoint` should produce: optional fields default
to zero. -/
def sampleOf (p : IPoint) : Sample :=
  ⟨p.control.getD 0, p.x, p.y, p.r, p.g, p.b,
   p.i.getD 0, p.u1.getD 0, p.u2.getD 0⟩

/-- All fields of the point fit their 16-bit wire slots. -/
def pointInRange (p : IPoint) : Prop :=
  p.control.getD 0 < 65536 ∧
  -32768 ≤ p.x ∧ p.x < 32768 ∧
  -32768 ≤ p.y ∧ p.y < 32768 ∧
  p.r < 65536 ∧ p.g < 65536 ∧ p.b < 65536 ∧
  p.i.getD 0 < 65536 ∧ p.u1.getD 0 < 65536 ∧ p.u2.getD 0 < 65536

instance (p : IPoint) : Decidable (pointInRange p) := by
  unfold pointInRange
  infer_instance

/-- Parsed SVG path commands after `toAbs` — the output shape of the
external svg-pathdata library that `Path.draw` switches over.  Coordinates
are abstracted to `Int`; they do not influence control flow. -/
inductive PathCmd where
  | moveTo (x y : Int)
  | lineTo (x y : Int)
  | horizTo (x : Int)
  | vertTo (y : Int)
  | curveTo (x1 y1 x2 y2 x y : Int)
  | smoothTo (x2 y2 x y : Int)
  | closePath
deriving DecidableEq, Repr

/-- The locals of `Path.draw`'s command loop: `lastMoveCommand` (its target
point), `lastCurveCommand` (its second control point x2, y2 — the part a
smooth curve reads back), and the previous pen position. -/
structure DrawSt where
  lastMove : Option (Int × Int)
  lastCurve : Option (Int × Int)
  prevX : Int
  prevY : Int
deriving DecidableEq, Repr

/-- Initial loop locals of `Path.draw`. -/
def initDrawSt : DrawSt := ⟨none, none, 0, 0⟩

/-- Signature of the `Line` collaborator's draw: from-point, to-point, to a
point list (the `color` and `resolution` arguments are fixed per call and
folded into the function). -/
def LineFn : Type :=
  Int × Int → Int × Int → List (Int × Int)

/-- Signature of the `Curve` collaborator's draw: from-point, from-control,
to-point, to-control, to a point list. -/
def CurveFn : Type :=
  Int × Int → Int × Int → Int × Int → Int × Int → List (Int × Int)

/-- One arm of the `switch` in `Path.draw`: either the points the command
contributes together with the updated locals, or the thrown sequencing
error. -/
def drawStep (lf : LineFn) (cf : CurveFn) (st : DrawSt) :
    PathCmd → Except String (DrawSt × List (Int × Int))
  | .moveTo x y =>
    .ok ({ st with lastMove := some (x, y), prevX := x, prevY := y },
         [(x, y)])
  | .horizTo x =>
    .ok ({ st with prevX := x }, lf (st.prevX, st.prevY) (x, st.prevY))
  | .vertTo y =>
    .ok ({ st with prevY := y }, lf (st.prevX, st.prevY) (st.prevX, y))
  | .lineTo x y =>
    .ok ({ st with prevX := x, prevY := y }, lf (st.prevX, st.prevY) (x, y))
  | .curveTo x1 y1 x2 y2 x y =>
    .ok ({ st with prevX := x, prevY := y, lastCurve := some (x2, y2) },
         cf (st.prevX, st.prevY) (x1, y1) (x, y) (x2, y2))
  | .smoothTo x2 y2 x y =>
    match st.lastCurve with
    | none =>
      .error "Path parsing error: smooth curve command called without a prior curve command."
    | some c =>
      .ok ({ st with prevX := x, prevY := y, lastCurve := some (x2, y2) },
           cf (st.prevX, st.prevY) c (x, y) (x2, y2))
  | .closePath =>
    match st.lastMove with
    | none =>
      .error "Path parsing error: close path command called without a prior move command."
    | some m =>
      .ok ({ st with prevX := m.1, prevY := m.2 },
           lf (st.prevX, st.prevY) m)

/-- The command loop of `Path.draw`, accumulating the flattened points. -/
def drawGo (lf : LineFn) (cf : CurveFn) :
    DrawSt → List PathCmd → Except String (List (Int × Int))
  | _, [] => .ok []
  | st, c :: rest => do
    let (st1, pts) ← drawStep lf cf st c
    let more ← drawGo lf cf st1 rest
    .ok (pts ++ more)

/-- Method `Path.draw` on an already-parsed command list. -/
def pathDraw (lf : LineFn) (cf : CurveFn) (cmds : List PathCmd) :
    Except String (List (Int × Int)) :=
  drawGo lf cf initDrawSt cmds

/-- The command is a curve command: the two kinds that set
`lastCurveCommand`. -/
def isCurveCmd : PathCmd → Bool
  | .curveTo _ _ _ _ _ _ => true
  | .smoothTo _ _ _ _ => true
  | _ => false

/-- The command is a move command: the kind that sets `lastMoveCommand`. -/
def isMoveCmd : PathCmd → Bool
  | .moveTo _ _ => true
  | _ => false

lemma handleResp_valid (s : ConnState) (d : Resp) :
    (handleStandardResponse s d).valid = (d.response == 97) := by
  unfold handleStandardResponse
  split <;> rfl

lemma handleResp_beginsent (s : ConnState) (d : Resp) :
    (handleStandardResponse s d).beginsent =
      (if d.playback_flags == 2 then false else s.beginsent) := by
  unfold handleStandardResponse
  split <;> simp_all

lemma handleResp_rate (s : ConnState) (d : Resp) :
    (handleStandardResponse s d).rate = s.rate := by
  unfold handleStandardResponse
  split <;> rfl

lemma handleResp_fullness (s : ConnState) (d : Resp) :
    (handleStandardResponse s d).fullness = d.buffer_fullness := by
  unfold handleStandardResponse
  split <;> rfl

lemma except_bind_ok {ε α β : Type} (a : α) (f : α → Except ε β) :
    (Except.ok a : Except ε α) >>= f = f a :=
  rfl

/-- Helper: an acknowledged `sendPoints` on a session whose `beginsent` flag
is down and whose rate is configured writes the batch and then re-issues
begin. -/
lemma sendPoints_reissues_begin (pts : List IPoint) (t : ConnState)
    (r rb : Resp) (rest : List Resp)
    (hv : r.response = 97) (hb : t.beginsent = false) (hrate : t.rate ≠ 0) :
    sendPoints pts t (r :: rb :: rest) =
      .ok ([Event.sent (sendPointsBytes pts), Event.received r,
            Event.sent (beginBytes t.rate), Event.received rb],
           { handleStandardResponse (handleStandardResponse t r) rb with
             beginsent := true }, rest) := by
  have hvalid : (handleStandardResponse t r).valid = true := by
    rw [handleResp_valid, hv]
    rfl
  have hbs : (handleStandardResponse t r).beginsent = false := by
    rw [handleResp_beginsent, hb]
    split <;> rfl
  have hrt : (handleStandardResponse t r).rate = t.rate := handleResp_rate t r
  have hrz : (t.rate == 0) = false := by
    simpa using hrate
  simp [sendPoints, awaitResp, except_bind_ok, hvalid, hbs, sendBegin, hrt,
    hrz, hrate]

/-- C3: spare capacity is computed as max(0, 1799 - fullness) and padded by
150 after the pause when below 100: at fullness 1799 it is 0 and the
heuristic yields 150; at fullness 1700 it is 99 and the heuristic yields
249. -/
theorem c3_spare_capacity_heuristic :
    spareCap 1799 = 0 ∧ paddedCap (spareCap 1799) = 150 ∧
    spareCap 1700 = 99 ∧ paddedCap (spareCap 1700) = 249 := by
  decide

/-- C7 counterexample: `close` does not reset the target sample rate — on a
session whose rate is 30000 the rate is still 30000 after `close`, while a
freshly constructed session carries the initial (unset) rate. -/
theorem c7_close_keeps_rate_counterexample :
    (close { initConn with rate := 30000 }).rate = 30000 ∧
    initConn.rate = 0 :=
  ⟨rfl, rfl⟩

/-- C7 amended: `close` resets the inbound byte queue, the pending-response
queue, fullness, playback state, the prepare-sent, begin-sent and valid
flags, the running flag and the counters to their freshly-constructed
values and destroys the transport handle, but preserves the target sample
rate along with the sample-source reference (and the remembered address and
port). -/
theorem c7_close_resets_state (s : ConnState) :
    close s = { initConn with
      rate := s.rate
      streamCallback := s.streamCallback
      ip := s.ip
      port := s.port } :=
  rfl

/-- C10: `sendUpdate` performs no rate validation — for every rate, zero
included, it sends the update command bytes (opcode u, u16 low-water-mark
0, u32 rate) and sets `beginsent` true once the response arrives, whereas
`sendBegin` rejects a falsy rate before sending anything. -/
theorem c10_update_skips_rate_validation (rate : Nat) (s : ConnState)
    (r : Resp) (rest : List Resp) :
    (∃ s1, sendUpdate rate s (r :: rest) =
        .ok ([Event.sent (updateBytes rate), Event.received r], s1, rest) ∧
      s1.beginsent = true) ∧
    sendBegin 0 s (r :: rest) = .error .usage ∧
    updateBytes rate = [117, 0, 0] ++ writeUnsignedInt32 rate :=
  ⟨⟨{ handleStandardResponse s r with beginsent := true }, rfl, rfl⟩,
   rfl, rfl⟩

/-- C6: `sendBegin` with a falsy rate (zero or unconfigured) throws a usage
error without sending any bytes; with a non-zero rate it sends the begin
command (opcode b, u16 low-water-mark 0, u32 rate), awaits one standard
response and then sets `beginsent` true. -/
theorem c6_begin_requires_rate (s : ConnState) (rs : List Resp) (rate : Nat)
    (r : Resp) (rest : List Resp) :
    sendBegin 0 s rs = .error .usage ∧
    (rate ≠ 0 →
      ∃ s1, sendBegin rate s (r :: rest) =
          .ok ([Event.sent (beginBytes rate), Event.received r], s1, rest) ∧
        s1.beginsent = true ∧
        beginBytes rate = [98, 0, 0] ++ writeUnsignedInt32 rate) := by
  refine ⟨rfl, fun h => ⟨{ handleStandardResponse s r with beginsent := true },
    ?_, rfl, rfl⟩⟩
  have hrz : ¬((rate == 0) = true) := by simpa using h
  unfold sendBegin
  rw [if_neg hrz]
  rfl

/-- Witness for C6 at rate 30000 with an acknowledged response. -/
theorem c6_begin_requires_rate_witness :
    (30000 : Nat) ≠ 0 ∧
    sendBegin 0 initConn [] = .error .usage ∧
    (∃ s1, sendBegin 30000 initConn [⟨97, 0, 0, 0⟩] =
        .ok ([Event.sent (beginBytes 30000), Event.received ⟨97, 0, 0, 0⟩],
             s1, []) ∧
      s1.beginsent = true ∧
      beginBytes 30000 = [98, 0, 0] ++ writeUnsignedInt32 30000) :=
  ⟨by decide,
   (c6_begin_requires_rate initConn [] 30000 ⟨97, 0, 0, 0⟩ []).1,
   (c6_begin_requires_rate initConn [] 30000 ⟨97, 0, 0, 0⟩ []).2 (by decide)⟩

/-- C2 counterexample: the source tests the playback flags with equality
against 2, not as a bitmask — a response whose flags value is 3 has the
underrun bit (value 2) set, yet handling it leaves `beginsent` true. -/
theorem c2_underrun_bitmask_counterexample :
    (3 &&& 2 ≠ 0) ∧
    (handleStandardResponse { initConn with beginsent := true }
        ⟨97, 500, 1, 3⟩).beginsent = true := by
  decide

/-- C2 amended: for every standard response whose playback-flags value
equals exactly 2, handling the response leaves `beginsent` false, and the
next acknowledged `sendPoints` issues begin (immediately after the write,
before any subsequent batch). -/
theorem c2_underrun_clears_beginsent (s : ConnState) (d : Resp)
    (pts : List IPoint) (r rb : Resp) (rest : List Resp)
    (hd : d.playback_flags = 2) (hr : r.response = 97) (hrate : s.rate ≠ 0) :
    (handleStandardResponse s d).beginsent = false ∧
    ∃ s2, sendPoints pts (handleStandardResponse s d) (r :: rb :: rest) =
        .ok ([Event.sent (sendPointsBytes pts), Event.received r,
              Event.sent (beginBytes s.rate), Event.received rb],
             s2, rest) ∧
      s2.beginsent = true := by
  have hbs : (handleStandardResponse s d).beginsent = false := by
    rw [handleResp_beginsent, hd]
    rfl
  have hrt : (handleStandardResponse s d).rate = s.rate := handleResp_rate s d
  have h2 := sendPoints_reissues_begin pts (handleStandardResponse s d) r rb
    rest hr hbs (by rw [hrt]; exact hrate)
  rw [hrt] at h2
  exact ⟨hbs, ⟨_, h2, rfl⟩⟩

/-- Witness for C2's amended statement at concrete inputs. -/
theorem c2_underrun_clears_beginsent_witness :
    (⟨97, 100, 2, 2⟩ : Resp).playback_flags = 2 ∧
    (⟨97, 50, 2, 0⟩ : Resp).response = 97 ∧
    ({ initConn with rate := 30000, beginsent := true } : ConnState).rate ≠ 0 ∧
    ((handleStandardResponse { initConn with rate := 30000, beginsent := true }
        ⟨97, 100, 2, 2⟩).beginsent = false ∧
     ∃ s2, sendPoints [] (handleStandardResponse
          { initConn with rate := 30000, beginsent := true } ⟨97, 100, 2, 2⟩)
          [⟨97, 50, 2, 0⟩, ⟨97, 60, 2, 0⟩] =
        .ok ([Event.sent (sendPointsBytes []), Event.received ⟨97, 50, 2, 0⟩,
              Event.sent (beginBytes
                ({ initConn with rate := 30000, beginsent := true } : ConnState).rate),
              Event.received ⟨97, 60, 2, 0⟩], s2, []) ∧
      s2.beginsent = true) :=
  ⟨rfl, rfl, by decide,
   c2_underrun_clears_beginsent { initConn with rate := 30000, beginsent := true }
     ⟨97, 100, 2, 2⟩ [] ⟨97, 50, 2, 0⟩ ⟨97, 60, 2, 0⟩ [] rfl rfl (by decide)⟩

lemma isComm_sent (b : List Nat) : (Event.sent b).isComm = true := rfl

lemma isComm_received (r : Resp) : (Event.received r).isComm = true := rfl

lemma isComm_delayed (t : Nat) : (Event.delayed t).isComm = false := rfl

/-- C9: the `valid` flag is recomputed on every standard response as
(response code = a) — after an invalid response one acknowledged response
makes it true again, so the condition is not sticky, and a later
`sendPoints` on the same un-reconnected session (begin still outstanding)
again issues begin exactly as on a healthy connection. -/
theorem c9_valid_flag_not_sticky (s : ConnState) (d a : Resp)
    (pts : List IPoint) (r rb : Resp) (rest : List Resp)
    (hbad : d.response ≠ 97) (hack : a.response = 97)
    (hb : s.beginsent = false) (hrate : s.rate ≠ 0) (hr : r.response = 97) :
    (handleStandardResponse s d).valid = false ∧
    (handleStandardResponse (handleStandardResponse s d) a).valid = true ∧
    ∃ s2, sendPoints pts (handleStandardResponse s d) (r :: rb :: rest) =
        .ok ([Event.sent (sendPointsBytes pts), Event.received r,
              Event.sent (beginBytes s.rate), Event.received rb],
             s2, rest) := by
  have hb1 : (handleStandardResponse s d).beginsent = false := by
    rw [handleResp_beginsent, hb]
    split <;> rfl
  have hr1 : (handleStandardResponse s d).rate = s.rate := handleResp_rate s d
  have h2 := sendPoints_reissues_begin pts (handleStandardResponse s d) r rb
    rest hr hb1 (by rw [hr1]; exact hrate)
  rw [hr1] at h2
  refine ⟨?_, ?_, ⟨_, h2⟩⟩
  · rw [handleResp_valid]
    simp [hbad]
  · rw [handleResp_valid, hack]
    rfl

/-- Witness for C9: a rejected ping-style response (code 63) followed by
acknowledged responses on the same session. -/
theorem c9_valid_flag_not_sticky_witness :
    (⟨63, 0, 0, 0⟩ : Resp).response ≠ 97 ∧
    (⟨97, 10, 1, 0⟩ : Resp).response = 97 ∧
    ({ initConn with rate := 30000 } : ConnState).beginsent = false ∧
    ({ initConn with rate := 30000 } : ConnState).rate ≠ 0 ∧
    (⟨97, 20, 2, 0⟩ : Resp).response = 97 ∧
    ((handleStandardResponse { initConn with rate := 30000 }
        ⟨63, 0, 0, 0⟩).valid = false ∧
     (handleStandardResponse (handleStandardResponse
        { initConn with rate := 30000 } ⟨63, 0, 0, 0⟩)
        ⟨97, 10, 1, 0⟩).valid = true ∧
     ∃ s2, sendPoints [] (handleStandardResponse
          { initConn with rate := 30000 } ⟨63, 0, 0, 0⟩)
          [⟨97, 20, 2, 0⟩, ⟨97, 30, 2, 0⟩] =
        .ok ([Event.sent (sendPointsBytes []), Event.received ⟨97, 20, 2, 0⟩,
              Event.sent (beginBytes ({ initConn with rate := 30000 } : ConnState).rate),
              Event.received ⟨97, 30, 2, 0⟩], s2, [])) :=
  ⟨by decide, rfl, rfl, by decide, rfl,
   c9_valid_flag_not_sticky { initConn with rate := 30000 } ⟨63, 0, 0, 0⟩
     ⟨97, 10, 1, 0⟩ [] ⟨97, 20, 2, 0⟩ ⟨97, 30, 2, 0⟩ []
     (by decide) rfl rfl (by decide) rfl⟩

/-- C4: a scheduler iteration entered with idle playback state and
`beginsent` false sends, in order: prepare (awaiting its response), then
the sample batch (awaiting its response), then begin (awaiting its
response). -/
theorem c4_idle_iteration_command_order (frame : List IPoint) (s : ConnState)
    (r1 r2 r3 : Resp)
    (hrun : s.running = true) (hcb : s.streamCallback = some ())
    (hidle : s.playback_state = 0) (hb : s.beginsent = false)
    (hrate : s.rate ≠ 0) (hr2 : r2.response = 97) :
    (runIteration frame s [r1, r2, r3]).map
        (fun t => (t.1.filter Event.isComm, t.2.2)) =
      .ok ([Event.sent prepareBytes, Event.received r1,
            Event.sent (sendPointsBytes
              (frame.take (capFor r1.buffer_fullness))),
            Event.received r2, Event.sent (beginBytes s.rate),
            Event.received r3], []) := by
  by_cases hcap : spareCap r1.buffer_fullness < 100
  · have hcf : capFor r1.buffer_fullness =
        (spareCap r1.buffer_fullness + 150).toNat := by
      unfold capFor paddedCap
      rw [if_pos hcap]
    simp [runIteration, hrun, hcb, hidle, sendPrepare, sendPoints, sendBegin,
      awaitResp, except_bind_ok, Except.map, handleResp_valid,
      handleResp_beginsent, handleResp_rate, handleResp_fullness, hb, hrate,
      hr2, hcap, hcf, isComm_sent, isComm_received, isComm_delayed]
  · have hcf : capFor r1.buffer_fullness =
        (spareCap r1.buffer_fullness).toNat := by
      unfold capFor paddedCap
      rw [if_neg hcap]
    simp [runIteration, hrun, hcb, hidle, sendPrepare, sendPoints, sendBegin,
      awaitResp, except_bind_ok, Except.map, handleResp_valid,
      handleResp_beginsent, handleResp_rate, handleResp_fullness, hb, hrate,
      hr2, hcap, hcf, isComm_sent, isComm_received, isComm_delayed]

/-- Concrete session used by the C4 witness. -/
def c4WitnessState : ConnState :=
  { initConn with running := true, streamCallback := some (), rate := 30000 }

/-- Concrete frame used by the C4 witness. -/
def c4WitnessFrame : List IPoint :=
  [⟨1, 2, 3, 4, 5, none, none, none, none⟩,
   ⟨6, 7, 8, 9, 10, none, none, none, none⟩,
   ⟨11, 12, 13, 14, 15, none, none, none, none⟩]

/-- Witness for C4 at a concrete idle session with three queued responses. -/
theorem c4_idle_iteration_command_order_witness :
    c4WitnessState.running = true ∧
    c4WitnessState.streamCallback = some () ∧
    c4WitnessState.playback_state = 0 ∧
    c4WitnessState.beginsent = false ∧
    c4WitnessState.rate ≠ 0 ∧
    (⟨97, 3, 1, 0⟩ : Resp).response = 97 ∧
    (runIteration c4WitnessFrame c4WitnessState
        [⟨97, 1700, 0, 0⟩, ⟨97, 3, 1, 0⟩, ⟨97, 3, 2, 0⟩]).map
        (fun t => (t.1.filter Event.isComm, t.2.2)) =
      .ok ([Event.sent prepareBytes, Event.received ⟨97, 1700, 0, 0⟩,
            Event.sent (sendPointsBytes (c4WitnessFrame.take
              (capFor (⟨97, 1700, 0, 0⟩ : Resp).buffer_fullness))),
            Event.received ⟨97, 3, 1, 0⟩,
            Event.sent (beginBytes c4WitnessState.rate),
            Event.received ⟨97, 3, 2, 0⟩], []) :=
  ⟨rfl, rfl, rfl, rfl, by decide, rfl,
   c4_idle_iteration_command_order c4WitnessFrame c4WitnessState
     ⟨97, 1700, 0, 0⟩ ⟨97, 3, 1, 0⟩ ⟨97, 3, 2, 0⟩ rfl rfl rfl rfl
     (by decide) rfl⟩

lemma decodePointsCmd_cons (op : Nat) (rest : List Nat) :
    decodePointsCmd (op :: rest) =
      if op = 100 then do
        let (n, rest2) ← readU16 rest
        let (smps, rest3) ← readSamples n rest2
        if rest3 = [] then some smps else none
      else none :=
  rfl

lemma readU16_writeU16 (n : Nat) (rest : List Nat) (h : n < 65536) :
    readU16 (writeUnsignedInt16 n ++ rest) = some (n, rest) := by
  simp only [writeUnsignedInt16, List.cons_append, List.nil_append, readU16]
  congr 1
  congr 1
  omega

lemma readU16_writeS16 (x : Int) (rest : List Nat) :
    readU16 (writeSignedInt16 x ++ rest) = some ((x % 65536).toNat, rest) := by
  unfold writeSignedInt16
  apply readU16_writeU16
  omega

lemma toSigned16_emod (x : Int) (h1 : -32768 ≤ x) (h2 : x < 32768) :
    toSigned16 (x % 65536).toNat = x := by
  unfold toSigned16
  split <;> omega

lemma readSample_pointBytes (p : IPoint) (rest : List Nat)
    (h : pointInRange p) :
    readSample (pointBytes p ++ rest) = some (sampleOf p, rest) := by
  obtain ⟨h1, h2, h3, h4, h5, h6, h7, h8, h9, h10, h11⟩ := h
  unfold pointBytes readSample
  simp only [List.append_assoc]
  rw [readU16_writeU16 _ _ h1]
  simp only [Option.bind_eq_bind, Option.some_bind]
  rw [readU16_writeS16]
  simp only [Option.bind_eq_bind, Option.some_bind]
  rw [readU16_writeS16]
  simp only [Option.some_bind]
  rw [readU16_writeU16 _ _ h6]
  simp only [Option.some_bind]
  rw [readU16_writeU16 _ _ h7]
  simp only [Option.some_bind]
  rw [readU16_writeU16 _ _ h8]
  simp only [Option.some_bind]
  rw [readU16_writeU16 _ _ h9]
  simp only [Option.some_bind]
  rw [readU16_writeU16 _ _ h10]
  simp only [Option.some_bind]
  rw [readU16_writeU16 _ _ h11]
  simp only [Option.some_bind]
  rw [toSigned16_emod _ h2 h3, toSigned16_emod _ h4 h5]
  rfl

lemma readSamples_points (points : List IPoint) (rest : List Nat)
    (h : ∀ p ∈ points, pointInRange p) :
    readSamples points.length ((points.map pointBytes).flatten ++ rest) =
      some (points.map sampleOf, rest) := by
  induction points with
  | nil => simp [readSamples]
  | cons p ps ih =>
    simp only [List.map_cons, List.flatten_cons, List.length_cons,
      List.append_assoc, readSamples]
    rw [readSample_pointBytes p _ (h p (by simp))]
    simp only [Option.bind_eq_bind, Option.some_bind]
    rw [ih (fun q hq => h q (by simp [hq]))]
    rfl

lemma pointBytes_length (p : IPoint) : (pointBytes p).length = 18 := by
  simp [pointBytes, writeUnsignedInt16, writeSignedInt16]

lemma flatten_pointBytes_length (points : List IPoint) :
    ((points.map pointBytes).flatten).length = 18 * points.length := by
  induction points with
  | nil => simp
  | cons p ps ih =>
    simp only [List.map_cons, List.flatten_cons, List.length_append,
      pointBytes_length, ih, List.length_cons]
    ring

/-- C5: for every in-range batch, `sendPoints` encodes the opcode d, then
the batch length as a u16 count, then per sample exactly nine 16-bit fields
in the order control, signed x, signed y, r, g, b, intensity, reserved1,
reserved2, with absent optional fields encoded as zero — witnessed by the
inverse field layout recovering precisely those values, and by the total
length 3 + 18 per sample. -/
theorem c5_writeSamples_encoding (points : List IPoint)
    (hlen : points.length < 65536)
    (hr : ∀ p ∈ points, pointInRange p) :
    decodePointsCmd (sendPointsBytes points) =
      some (points.map sampleOf) ∧
    (sendPointsBytes points).length = 3 + 18 * points.length := by
  constructor
  · simp only [sendPointsBytes, List.cons_append]
    rw [decodePointsCmd_cons]
    simp only [if_pos rfl]
    rw [readU16_writeU16 _ _ hlen]
    have hs := readSamples_points points [] hr
    rw [List.append_nil] at hs
    simp [hs]
  · simp only [sendPointsBytes, List.length_cons, List.length_append,
      flatten_pointBytes_length, writeUnsignedInt16, List.length_nil]

/-- Concrete batch used by the C5 witness: one point with all optional
fields absent and one with them present, negative and positive
coordinates. -/
def c5WitnessPoints : List IPoint :=
  [⟨-3, 7, 10, 20, 30, none, none, none, none⟩,
   ⟨32767, -32768, 65535, 0, 1, some 5, some 40, some 41, some 42⟩]

/-- Witness for C5 on a concrete two-point batch. -/
theorem c5_writeSamples_encoding_witness :
    c5WitnessPoints.length < 65536 ∧
    (∀ p ∈ c5WitnessPoints, pointInRange p) ∧
    (decodePointsCmd (sendPointsBytes c5WitnessPoints) =
      some (c5WitnessPoints.map sampleOf) ∧
     (sendPointsBytes c5WitnessPoints).length =
      3 + 18 * c5WitnessPoints.length) :=
  ⟨by decide, by decide,
   c5_writeSamples_encoding c5WitnessPoints (by decide) (by decide)⟩

lemma popinputqueue_nil (s : ConnState) (h : s.inputhandlerqueue = []) :
    popinputqueue s = (s, none) := by
  unfold popinputqueue
  rw [h]

lemma popinputqueue_cons (s : ConnState) (sz : Nat) (rest : List Nat)
    (h : s.inputhandlerqueue = sz :: rest) :
    popinputqueue s =
      if sz ≤ s.inputqueue.length then
        ({ s with
            inputqueue := s.inputqueue.drop sz,
            inputhandlerqueue := rest }, some (s.inputqueue.take sz))
      else (s, none) := by
  unfold popinputqueue
  rw [h]

lemma splitSizes_snoc (ss : List Nat) (sz : Nat) (bytes : List Nat) :
    splitSizes (ss ++ [sz]) bytes =
      splitSizes ss bytes ++ [(bytes.drop ss.sum).take sz] := by
  induction ss generalizing bytes with
  | nil => simp [splitSizes]
  | cons a rest ih =>
    simp only [List.cons_append, splitSizes, List.append_eq]
    rw [ih, List.sum_cons, List.drop_drop]

lemma splitSizes_stable :
    ∀ (ss bytes extra : List Nat), ss.sum ≤ bytes.length →
      splitSizes ss (bytes ++ extra) = splitSizes ss bytes := by
  intro ss
  induction ss with
  | nil =>
    intro bytes extra h
    simp [splitSizes]
  | cons a rest ih =>
    intro bytes extra h
    simp only [List.sum_cons] at h
    have ha : a ≤ bytes.length := by omega
    simp only [splitSizes, List.take_append_of_le_length ha,
      List.drop_append_of_le_length ha]
    rw [ih (bytes.drop a) extra (by rw [List.length_drop]; omega)]

lemma splitSizes_lengths :
    ∀ (ss bytes : List Nat), ss.sum ≤ bytes.length →
      (splitSizes ss bytes).map List.length = ss := by
  intro ss
  induction ss with
  | nil =>
    intro bytes h
    simp [splitSizes]
  | cons a rest ih =>
    intro bytes h
    simp only [List.sum_cons] at h
    simp only [splitSizes, List.map_cons, List.length_take]
    rw [ih (bytes.drop a) (by rw [List.length_drop]; omega)]
    congr 1
    omega

/-- Invariant tying a demultiplexer state to the registered entry sizes and
the bytes fed so far: the first k continuations have been delivered with
exactly the first chunks of the byte stream, the rest are still queued, and
the inbound queue holds the undelivered suffix. -/
def demuxInv (sizes fed : List Nat) (s : ConnState)
    (outs : List (List Nat)) : Prop :=
  ∃ k, outs = splitSizes (sizes.take k) fed ∧
    s.inputhandlerqueue = sizes.drop k ∧
    s.inputqueue = fed.drop ((sizes.take k).sum) ∧
    (sizes.take k).sum ≤ fed.length

lemma take_succ_of_drop_cons {sizes : List Nat} {k sz : Nat}
    {rest : List Nat} (h : sizes.drop k = sz :: rest) :
    sizes.take (k + 1) = sizes.take k ++ [sz] := by
  rw [List.take_add sizes k 1, h]
  rfl

lemma drop_succ_of_drop_cons {sizes : List Nat} {k sz : Nat}
    {rest : List Nat} (h : sizes.drop k = sz :: rest) :
    sizes.drop (k + 1) = rest := by
  rw [← List.drop_drop 1 k sizes, h]
  rfl

lemma pop_inv (sizes fed : List Nat) (s : ConnState)
    (outs : List (List Nat)) (h : demuxInv sizes fed s outs) :
    demuxInv sizes fed (popinputqueue s).1
      (outs ++ ((popinputqueue s).2).toList) := by
  obtain ⟨k, ho, hh, hq, hb⟩ := h
  cases hdrop : sizes.drop k with
  | nil =>
    have hnil : s.inputhandlerqueue = [] := by rw [hh, hdrop]
    rw [popinputqueue_nil s hnil]
    exact ⟨k, by simpa using ho, hh, hq, hb⟩
  | cons sz rest =>
    have hh1 : s.inputhandlerqueue = sz :: rest := by rw [hh, hdrop]
    by_cases hle : sz ≤ s.inputqueue.length
    · have hpop : popinputqueue s =
          ({ s with
              inputqueue := s.inputqueue.drop sz,
              inputhandlerqueue := rest }, some (s.inputqueue.take sz)) := by
        rw [popinputqueue_cons s sz rest hh1, if_pos hle]
      rw [hpop]
      refine ⟨k + 1, ?_, ?_, ?_, ?_⟩
      · simp only [Option.toList_some]
        rw [take_succ_of_drop_cons hdrop, splitSizes_snoc, ← ho, hq]
      · exact (drop_succ_of_drop_cons hdrop).symm
      · show s.inputqueue.drop sz = _
        rw [hq, List.drop_drop, take_succ_of_drop_cons hdrop,
          List.sum_append]
        simp
      · rw [take_succ_of_drop_cons hdrop, List.sum_append]
        have hlen : s.inputqueue.length = fed.length - (sizes.take k).sum := by
          rw [hq, List.length_drop]
        simp only [List.sum_cons, List.sum_nil]
        omega
    · have hpop : popinputqueue s = (s, none) := by
        rw [popinputqueue_cons s sz rest hh1, if_neg hle]
      rw [hpop]
      exact ⟨k, by simpa using ho, hh, hq, hb⟩

lemma demuxInv_append (sizes fed b : List Nat) (s : ConnState)
    (outs : List (List Nat)) (h : demuxInv sizes fed s outs) :
    demuxInv sizes (fed ++ b)
      { s with inputqueue := s.inputqueue ++ b } outs := by
  obtain ⟨k, ho, hh, hq, hb⟩ := h
  refine ⟨k, ?_, hh, ?_, ?_⟩
  · rw [splitSizes_stable (sizes.take k) fed b hb]
    exact ho
  · show s.inputqueue ++ b = _
    rw [List.drop_append_of_le_length hb, hq]
  · rw [List.length_append]
    omega

lemma feed_inv (sizes fed b : List Nat) (s : ConnState)
    (outs : List (List Nat)) (h : demuxInv sizes fed s outs) :
    demuxInv sizes (fed ++ b) (feed b s).1
      (outs ++ ((feed b s).2).toList) := by
  unfold feed
  exact pop_inv sizes (fed ++ b) _ outs (demuxInv_append sizes fed b s outs h)

lemma runFeeds_inv (sizes : List Nat) :
    ∀ (chunks : List (List Nat)) (fed : List Nat) (s : ConnState)
      (outs : List (List Nat)), demuxInv sizes fed s outs →
      demuxInv sizes (fed ++ chunks.flatten) (runFeeds chunks s).1
        (outs ++ (runFeeds chunks s).2) := by
  intro chunks
  induction chunks with
  | nil =>
    intro fed s outs h
    simpa [runFeeds] using h
  | cons b bs ih =>
    intro fed s outs h
    have h2 := ih (fed ++ b) (feed b s).1 (outs ++ ((feed b s).2).toList)
      (feed_inv sizes fed b s outs h)
    simp only [runFeeds, List.flatten_cons]
    simpa [List.append_assoc] using h2

lemma sum_take_le_sum (sizes : List Nat) (j : Nat) :
    (sizes.take j).sum ≤ sizes.sum := by
  conv_rhs => rw [← List.take_append_drop j sizes]
  rw [List.sum_append]
  omega

lemma runPops_complete (sizes fed : List Nat)
    (htot : sizes.sum ≤ fed.length) :
    ∀ (n : Nat) (s : ConnState) (outs : List (List Nat)),
      demuxInv sizes fed s outs → s.inputhandlerqueue.length ≤ n →
      outs ++ (runPops n s).2 = splitSizes sizes fed ∧
      (runPops n s).1.inputhandlerqueue = [] := by
  intro n
  induction n with
  | zero =>
    intro s outs h hlen
    obtain ⟨k, ho, hh, hq, hb⟩ := h
    have hnil : s.inputhandlerqueue = [] := by
      cases hx : s.inputhandlerqueue with
      | nil => rfl
      | cons a l =>
        rw [hx] at hlen
        simp at hlen
    have hk : sizes.length ≤ k := by
      rw [hh] at hnil
      exact List.drop_eq_nil_iff.mp hnil
    constructor
    · rw [ho, List.take_of_length_le hk]
      simp [runPops]
    · simpa [runPops] using hnil
  | succ m ih =>
    intro s outs h hlen
    obtain ⟨k, ho, hh, hq, hb⟩ := h
    cases hdrop : sizes.drop k with
    | nil =>
      have hnil : s.inputhandlerqueue = [] := by rw [hh, hdrop]
      have hpop : popinputqueue s = (s, none) := popinputqueue_nil s hnil
      have h2 := ih s outs ⟨k, ho, hh, hq, hb⟩ (by rw [hnil]; simp)
      simp only [runPops, hpop]
      simpa using h2
    | cons sz rest =>
      have hh1 : s.inputhandlerqueue = sz :: rest := by rw [hh, hdrop]
      have hsum : (sizes.take k).sum + sz ≤ fed.length := by
        have h1 := sum_take_le_sum sizes (k + 1)
        rw [take_succ_of_drop_cons hdrop, List.sum_append] at h1
        simp only [List.sum_cons, List.sum_nil] at h1
        omega
      have hle : sz ≤ s.inputqueue.length := by
        rw [hq, List.length_drop]
        omega
      have hpop : popinputqueue s =
          ({ s with
              inputqueue := s.inputqueue.drop sz,
              inputhandlerqueue := rest }, some (s.inputqueue.take sz)) := by
        rw [popinputqueue_cons s sz rest hh1, if_pos hle]
      have hinv2 := pop_inv sizes fed s outs ⟨k, ho, hh, hq, hb⟩
      rw [hpop] at hinv2
      simp only [Option.toList_some] at hinv2
      have hlen2 : ({ s with
          inputqueue := s.inputqueue.drop sz,
          inputhandlerqueue := rest } : ConnState).inputhandlerqueue.length
          ≤ m := by
        show rest.length ≤ m
        rw [hh1] at hlen
        simp only [List.length_cons] at hlen
        omega
      have h2 := ih _ _ hinv2 hlen2
      simp only [runPops, hpop]
      refine ⟨?_, h2.2⟩
      rw [← h2.1]
      simp [List.append_assoc]

/-- C1 counterexample: a single feed whose bytes cover the sum of all
queued expectation sizes does not satisfy them all in one pass — with two
queued one-byte expectations, feeding two bytes at once invokes only the
head continuation and leaves the second entry queued. -/
theorem c1_single_feed_counterexample :
    ([[7, 8]] : List (List Nat)).flatten.length = ([1, 1] : List Nat).sum ∧
    (runFeeds [[7, 8]] { initConn with inputhandlerqueue := [1, 1] }).2 =
      [[7]] ∧
    (runFeeds [[7, 8]]
        { initConn with inputhandlerqueue := [1, 1] }).1.inputhandlerqueue =
      [1] := by
  decide

/-- C1 amended: each `_popinputqueue` invocation satisfies at most the head
queued expectation, so a single feed delivers at most one continuation; but
for every chunking of the inbound bytes, once the pop routine has run once
per queued entry after enough bytes accumulated (as happens in the running
system, where every send and every new expectation also triggers a pop),
every queued continuation is invoked exactly once, in registration order,
each receiving exactly its requested byte count taken in order from the
front of the inbound queue. -/
theorem c1_demux_in_order_delivery (sizes : List Nat)
    (chunks : List (List Nat)) (s : ConnState)
    (h1 : s.inputqueue = []) (h2 : s.inputhandlerqueue = sizes)
    (h3 : sizes.sum ≤ chunks.flatten.length) :
    (runFeeds chunks s).2 ++
        (runPops sizes.length (runFeeds chunks s).1).2 =
      splitSizes sizes chunks.flatten ∧
    (runPops sizes.length (runFeeds chunks s).1).1.inputhandlerqueue = [] ∧
    (splitSizes sizes chunks.flatten).map List.length = sizes := by
  have h0 : demuxInv sizes [] s [] :=
    ⟨0, by simp [splitSizes], by simpa using h2, by simpa using h1, by simp⟩
  have hfeeds := runFeeds_inv sizes chunks [] s [] h0
  simp only [List.nil_append] at hfeeds
  obtain ⟨k, ho, hh, hq, hb⟩ := hfeeds
  have hcomp := runPops_complete sizes chunks.flatten h3 sizes.length
    (runFeeds chunks s).1 (runFeeds chunks s).2 ⟨k, ho, hh, hq, hb⟩
    (by rw [hh, List.length_drop]; omega)
  exact ⟨hcomp.1, hcomp.2, splitSizes_lengths sizes chunks.flatten h3⟩

/-- Witness for C1's amended statement: two one-byte expectations, one
two-byte feed, two pop invocations. -/
theorem c1_demux_in_order_delivery_witness :
    ({ initConn with inputhandlerqueue := [1, 1] } : ConnState).inputqueue
      = [] ∧
    ({ initConn with
        inputhandlerqueue := [1, 1] } : ConnState).inputhandlerqueue
      = [1, 1] ∧
    ([1, 1] : List Nat).sum ≤ ([[7, 8]] : List (List Nat)).flatten.length ∧
    ((runFeeds [[7, 8]] { initConn with inputhandlerqueue := [1, 1] }).2 ++
        (runPops ([1, 1] : List Nat).length
          (runFeeds [[7, 8]]
            { initConn with inputhandlerqueue := [1, 1] }).1).2 =
      splitSizes [1, 1] ([[7, 8]] : List (List Nat)).flatten ∧
     (runPops ([1, 1] : List Nat).length
        (runFeeds [[7, 8]]
          { initConn with
            inputhandlerqueue := [1, 1] }).1).1.inputhandlerqueue = [] ∧
     (splitSizes [1, 1] ([[7, 8]] : List (List Nat)).flatten).map
        List.length = [1, 1]) :=
  ⟨rfl, rfl, by decide,
   c1_demux_in_order_delivery [1, 1] [[7, 8]]
     { initConn with inputhandlerqueue := [1, 1] } rfl rfl (by decide)⟩

lemma except_bind_err {ε α β : Type} (e : ε) (f : α → Except ε β) :
    (Except.error e : Except ε α) >>= f = Except.error e :=
  rfl

lemma drawStep_lastCurve (lf : LineFn) (cf : CurveFn) (st : DrawSt)
    (c : PathCmd) (st1 : DrawSt) (pts : List (Int × Int))
    (hc : isCurveCmd c = false)
    (h : drawStep lf cf st c = .ok (st1, pts)) :
    st1.lastCurve = st.lastCurve := by
  cases c with
  | moveTo x y =>
    simp only [drawStep, Except.ok.injEq, Prod.mk.injEq] at h
    rw [← h.1]
  | lineTo x y =>
    simp only [drawStep, Except.ok.injEq, Prod.mk.injEq] at h
    rw [← h.1]
  | horizTo x =>
    simp only [drawStep, Except.ok.injEq, Prod.mk.injEq] at h
    rw [← h.1]
  | vertTo y =>
    simp only [drawStep, Except.ok.injEq, Prod.mk.injEq] at h
    rw [← h.1]
  | curveTo x1 y1 x2 y2 x y => simp [isCurveCmd] at hc
  | smoothTo x2 y2 x y => simp [isCurveCmd] at hc
  | closePath =>
    cases hm : st.lastMove with
    | none => simp [drawStep, hm] at h
    | some m =>
      simp only [drawStep, hm, Except.ok.injEq, Prod.mk.injEq] at h
      rw [← h.1]

lemma drawStep_lastMove (lf : LineFn) (cf : CurveFn) (st : DrawSt)
    (c : PathCmd) (st1 : DrawSt) (pts : List (Int × Int))
    (hc : isMoveCmd c = false)
    (h : drawStep lf cf st c = .ok (st1, pts)) :
    st1.lastMove = st.lastMove := by
  cases c with
  | moveTo x y => simp [isMoveCmd] at hc
  | lineTo x y =>
    simp only [drawStep, Except.ok.injEq, Prod.mk.injEq] at h
    rw [← h.1]
  | horizTo x =>
    simp only [drawStep, Except.ok.injEq, Prod.mk.injEq] at h
    rw [← h.1]
  | vertTo y =>
    simp only [drawStep, Except.ok.injEq, Prod.mk.injEq] at h
    rw [← h.1]
  | curveTo x1 y1 x2 y2 x y =>
    simp only [drawStep, Except.ok.injEq, Prod.mk.injEq] at h
    rw [← h.1]
  | smoothTo x2 y2 x y =>
    cases hm : st.lastCurve with
    | none => simp [drawStep, hm] at h
    | some cc =>
      simp only [drawStep, hm, Except.ok.injEq, Prod.mk.injEq] at h
      rw [← h.1]
  | closePath =>
    cases hm : st.lastMove with
    | none => simp [drawStep, hm] at h
    | some m =>
      simp only [drawStep, hm, Except.ok.injEq, Prod.mk.injEq] at h
      rw [← h.1]

lemma drawGo_smooth_err (lf : LineFn) (cf : CurveFn) :
    ∀ (pre : List PathCmd) (st : DrawSt),
      (∀ c ∈ pre, isCurveCmd c = false) → st.lastCurve = none →
      ∀ (x2 y2 x y : Int) (post : List PathCmd),
        ∃ e, drawGo lf cf st (pre ++ PathCmd.smoothTo x2 y2 x y :: post) =
          .error e := by
  intro pre
  induction pre with
  | nil =>
    intro st hc hnc x2 y2 x y post
    refine ⟨"Path parsing error: smooth curve command called without a prior curve command.", ?_⟩
    simp [drawGo, drawStep, hnc, except_bind_err]
  | cons c cs ih =>
    intro st hc hnc x2 y2 x y post
    cases hstep : drawStep lf cf st c with
    | error e =>
      exact ⟨e, by simp [drawGo, hstep, except_bind_err]⟩
    | ok p =>
      obtain ⟨st1, pts⟩ := p
      have hnc1 : st1.lastCurve = none := by
        rw [drawStep_lastCurve lf cf st c st1 pts (hc c (by simp)) hstep]
        exact hnc
      obtain ⟨e, he⟩ := ih st1 (fun d hd => hc d (by simp [hd])) hnc1
        x2 y2 x y post
      exact ⟨e, by simp [drawGo, hstep, he, except_bind_ok,
        except_bind_err]⟩

lemma drawGo_close_err (lf : LineFn) (cf : CurveFn) :
    ∀ (pre : List PathCmd) (st : DrawSt),
      (∀ c ∈ pre, isMoveCmd c = false) → st.lastMove = none →
      ∀ (post : List PathCmd),
        ∃ e, drawGo lf cf st (pre ++ PathCmd.closePath :: post) =
          .error e := by
  intro pre
  induction pre with
  | nil =>
    intro st hm hnm post
    refine ⟨"Path parsing error: close path command called without a prior move command.", ?_⟩
    simp [drawGo, drawStep, hnm, except_bind_err]
  | cons c cs ih =>
    intro st hm hnm post
    cases hstep : drawStep lf cf st c with
    | error e =>
      exact ⟨e, by simp [drawGo, hstep, except_bind_err]⟩
    | ok p =>
      obtain ⟨st1, pts⟩ := p
      have hnm1 : st1.lastMove = none := by
        rw [drawStep_lastMove lf cf st c st1 pts (hm c (by simp)) hstep]
        exact hnm
      obtain ⟨e, he⟩ := ih st1 (fun d hd => hm d (by simp [hd])) hnm1 post
      exact ⟨e, by simp [drawGo, hstep, he, except_bind_ok,
        except_bind_err]⟩

/-- C8: in `Path.draw`, a smooth-curve command with no prior curve command
before it, and a close-path command with no prior move command before it,
each make the draw throw a sequencing error to its caller instead of
producing points. -/
theorem c8_path_sequencing_errors (lf : LineFn) (cf : CurveFn)
    (pre : List PathCmd) (x2 y2 x y : Int) (post : List PathCmd)
    (pre2 post2 : List PathCmd)
    (hc : ∀ c ∈ pre, isCurveCmd c = false)
    (hm : ∀ c ∈ pre2, isMoveCmd c = false) :
    (∃ e, pathDraw lf cf (pre ++ PathCmd.smoothTo x2 y2 x y :: post) =
      .error e) ∧
    (∃ e, pathDraw lf cf (pre2 ++ PathCmd.closePath :: post2) =
      .error e) :=
  ⟨drawGo_smooth_err lf cf pre initDrawSt hc rfl x2 y2 x y post,
   drawGo_close_err lf cf pre2 initDrawSt hm rfl post2⟩

/-- Witness for C8: a line command followed by a smooth curve, and a line
command followed by close-path, under trivial collaborator draw
functions. -/
theorem c8_path_sequencing_errors_witness :
    (∀ c ∈ [PathCmd.lineTo 1 1], isCurveCmd c = false) ∧
    (∀ c ∈ [PathCmd.lineTo 1 1], isMoveCmd c = false) ∧
    ((∃ e, pathDraw (fun _ _ => []) (fun _ _ _ _ => [])
        ([PathCmd.lineTo 1 1] ++ PathCmd.smoothTo 0 0 2 2 :: []) =
      .error e) ∧
     (∃ e, pathDraw (fun _ _ => []) (fun _ _ _ _ => [])
        ([PathCmd.lineTo 1 1] ++ PathCmd.closePath :: []) =
      .error e)) :=
  ⟨by decide, by decide,
   c8_path_sequencing_errors (fun _ _ => []) (fun _ _ _ _ => [])
     [PathCmd.lineTo 1 1] 0 0 2 2 [] [PathCmd.lineTo 1 1] []
     (by decide) (by decide)⟩
